import Mathlib

/-!
Verification of the exam-scrapers discovery-and-extraction pipeline.

The Python source (src/main.py, src/extractor.py) is shallowly embedded:
Python strings become `List Char`, pure string manipulation becomes Lean
functions, the rendered pages handed back by the external browser/parsing
collaborators become explicit data (`Page`), exceptions raised inside a
worker become an explicit outcome constructor, and the bounded thread pool
becomes a step relation on an explicit pool state.
-/

namespace ExamScrapers

/-- Characters of a Python string. -/
abbrev Str := List Char

/-- Python str.lower applied character by character. -/
def pyLower (s : Str) : Str := s.map Char.toLower

/-- Parses a run of decimal digits, most significant digit first. -/
def parseNat (ds : Str) : Nat := ds.foldl (fun a c => a * 10 + (c.toNat - 48)) 0

/-- Matches the regular expression `topic-(\d+)-question-(\d+)` at the start of
the string: the literal `topic-`, a maximal nonempty digit run (group 1), the
literal `-question-`, then a maximal nonempty digit run (group 2).  Shrinking
the first greedy run cannot recover a match (the following character would be
a digit, never `-`), so maximal runs are faithful to backtracking. -/
def matchTQAt (s : Str) : Option (Nat × Nat) :=
  if ("topic-".data).isPrefixOf s then
    let r1 := s.drop 6
    let d1 := r1.takeWhile Char.isDigit
    if d1.isEmpty then none
    else
      let r2 := r1.drop d1.length
      if ("-question-".data).isPrefixOf r2 then
        let d2 := (r2.drop 10).takeWhile Char.isDigit
        if d2.isEmpty then none else some (parseNat d1, parseNat d2)
      else none
  else none

/-- Scans every start position left to right, as `re.search` does, returning
the leftmost match of `topic-(\d+)-question-(\d+)`. -/
def reSearchTQ : Str → Option (Nat × Nat)
  | [] => none
  | c :: cs =>
    match matchTQAt (c :: cs) with
    | some r => some r
    | none => reSearchTQ cs

/-- Embeds `extract_topic_question` (src/main.py line 135).  The Python
function returns the 2-tuple `(int(g1), int(g2))` on a regex match and the
2-tuple `(None, None)` otherwise; a Python tuple is represented here as the
list of its components, `none` standing for Python `None`. -/
def extract_topic_question (link : Str) : List (Option Nat) :=
  match reSearchTQ link with
  | some (t, q) => [some t, some q]
  | none => [none, none]

/-- Python truthiness of a tuple value: `bool(t)` is `len(t) != 0`. -/
def pyTupleTruthy (t : List (Option Nat)) : Bool := !t.isEmpty

/-- An entry of `valid_links_to_process` in src/main.py `main`: the dict
`{'key': extract_topic_question(link), 'link': link}`. -/
structure RawItem where
  key : List (Option Nat)
  link : Str
  deriving DecidableEq

/-- Embeds the comprehension at src/main.py line 196:
`[{'key': extract_topic_question(link), 'link': link} for link in links
  if extract_topic_question(link)]`. -/
def valid_links_to_process (links : List Str) : List RawItem :=
  (links.filter (fun l => pyTupleTruthy (extract_topic_question l))).map
    (fun l => { key := extract_topic_question l, link := l })

/-- URL in which the `topic-…-question-…` pattern does not occur. -/
def c1BadLink : Str := "https://www.examtopics.com/discussions/google/view/12345-some-thread/".data

/-- C1: on a URL the pattern does not match, `extract_topic_question` returns
the tuple `(None, None)`; that tuple is truthy in Python (a 2-tuple is never
empty), so the caller's filter `if extract_topic_question(link)` keeps the
link and an item built from the unresolvable URL does appear in
`valid_links_to_process` — contradicting the claim that the link is dropped. -/
theorem c1_unresolvable_link_not_dropped :
    extract_topic_question c1BadLink = [none, none] ∧
    pyTupleTruthy (extract_topic_question c1BadLink) = true ∧
    valid_links_to_process [c1BadLink] =
      [{ key := [none, none], link := c1BadLink }] := by
  refine ⟨?_, ?_, ?_⟩ <;> rfl

/-- Sanity evaluation of the resolver on a matching and a half-matching URL. -/
theorem extract_topic_question_examples :
    extract_topic_question "x/topic-12-question-34/y".data = [some 12, some 34] ∧
    extract_topic_question "topic-12-question-".data = [none, none] := by
  exact ⟨rfl, rfl⟩

/-- Scanning pass of Python `s.replace(pat, repl)`: every non-overlapping
occurrence of `pat` is replaced, scanning left to right, without rescanning
`repl`.  The fuel argument makes the recursion structural; with fuel at least
the length of the string the fuel never runs out (a nonempty matched pattern
consumes at least one character). -/
def pyReplaceAux (pat repl : Str) : Nat → Str → Str
  | _, [] => []
  | 0, c :: cs => c :: cs
  | fuel + 1, c :: cs =>
    if pat ≠ [] ∧ pat.isPrefixOf (c :: cs) then
      repl ++ pyReplaceAux pat repl fuel ((c :: cs).drop pat.length)
    else
      c :: pyReplaceAux pat repl fuel cs

/-- Python `s.replace(pat, repl)`. -/
def pyReplace (s pat repl : Str) : Str := pyReplaceAux pat repl s.length s

/-- Python `s.strip()`: removes leading and trailing whitespace. -/
def pyStrip (s : Str) : Str :=
  ((s.dropWhile Char.isWhitespace).reverse.dropWhile Char.isWhitespace).reverse

/-- Python `s.split()` with no argument: splits on runs of whitespace and
discards empty pieces (hence also leading/trailing whitespace). -/
def pySplitWs (s : Str) : List Str :=
  (s.splitOnP Char.isWhitespace).filter (fun w => !w.isEmpty)

/-- Python `' '.join(ws)`: the pieces separated by single spaces. -/
def pyJoinSpace : List Str → Str
  | [] => []
  | [w] => w
  | w :: ws => w ++ ' ' :: pyJoinSpace ws

/-- Embeds the per-choice cleaning of src/main.py line 118:
`' '.join(full_text.replace("Most Voted", "").strip().split())`. -/
def cleanChoiceMain (full_text : Str) : Str :=
  pyJoinSpace (pySplitWs (pyStrip (pyReplace full_text "Most Voted".data [])))

/-- Embeds the per-choice cleaning of src/extractor.py line 75:
`' '.join(item.get_text(strip=True).split())` — note: no removal of the
`Most Voted` annotation. -/
def cleanChoiceExtractor (full_text : Str) : Str :=
  pyJoinSpace (pySplitWs full_text)

/-- Sanity evaluation of the two cleaning routines on one noisy choice. -/
theorem cleaning_examples :
    cleanChoiceMain "A.  Use   S3 Most Voted".data = "A. Use S3".data ∧
    cleanChoiceExtractor "A.  Use   S3 Most Voted".data = "A. Use S3 Most Voted".data := by
  exact ⟨rfl, rfl⟩

/-- Content of `soup.find("div", class_="question-body")` when present:
the optional `p.card-text` text (`get_text(separator='\n', strip=True)`). -/
structure QuestionBody where
  card_text : Option Str
  deriving DecidableEq

/-- A rendered page as seen by BeautifulSoup in `fetch_single_question_data`:
the three containers the code looks up.  `choices_container` holds the
`get_text(strip=True)` of each `li.multi-choice-item`; `answer_container`,
when present, holds the optional text of the `span.correct-answer` inside. -/
structure Page where
  question_body : Option QuestionBody
  choices_container : Option (List Str)
  answer_container : Option (Option Str)
  deriving DecidableEq

/-- A keyed link handed to the fetch coordinator: an entry of `sorted_links`
whose key matched the pattern, so both tuple components are integers. -/
structure LinkItem where
  topic : Nat
  question : Nat
  link : Str
  deriving DecidableEq

/-- The dict returned by `fetch_single_question_data`: the spread `link_item`
(key and link) plus the three extracted fields. -/
structure QRecord where
  topic : Nat
  question : Nat
  link : Str
  question_text : Str
  choices : List Str
  suggested_answer : Str
  deriving DecidableEq

/-- Outcome of one worker's session: either the rendered page (parsed into the
containers of interest) or an exception raised while acquiring the session,
navigating, or extracting — caught by the `except Exception` at the item
boundary. -/
inductive FetchOutcome where
  | ok (page : Page)
  | err
  deriving DecidableEq

/-- Embeds `fetch_single_question_data` (src/main.py lines 83–133), with the
browser/parsing collaborators abstracted into the `FetchOutcome`. -/
def fetch_single_question_data (item : LinkItem) (outcome : FetchOutcome) : QRecord :=
  match outcome with
  | .err =>
    { topic := item.topic, question := item.question, link := item.link,
      question_text := "Error during processing".data, choices := [],
      suggested_answer := "".data }
  | .ok page =>
    match page.question_body with
    | none =>
      { topic := item.topic, question := item.question, link := item.link,
        question_text := "Blocked or question not found".data, choices := [],
        suggested_answer := "".data }
    | some qb =>
      { topic := item.topic, question := item.question, link := item.link,
        question_text :=
          match qb.card_text with
          | some t => t
          | none => "Question text not found.".data,
        choices :=
          match page.choices_container with
          | none => []
          | some items => items.map cleanChoiceMain,
        suggested_answer :=
          match page.answer_container with
          | none => "Not found".data
          | some none => "Not found".data
          | some (some t) => t }

/-- Embeds `extract_question_from_link` (src/extractor.py lines 10–86): the
standalone extractor returns the pair `(question_text, choices)`, or
`(None, None)` when the question container is missing or an exception is
raised. -/
def extract_question_from_link (outcome : FetchOutcome) : Option Str × Option (List Str) :=
  match outcome with
  | .err => (none, none)
  | .ok page =>
    match page.question_body with
    | none => (none, none)
    | some qb =>
      (some (match qb.card_text with
             | some t => t
             | none => "Question text not found.".data),
       some (match page.choices_container with
             | none => []
             | some items => items.map cleanChoiceExtractor))

/-- Python substring test `needle in haystack`, scanning each start position. -/
def strContains (haystack needle : Str) : Bool :=
  match haystack with
  | [] => needle.isEmpty
  | c :: cs => needle.isPrefixOf (c :: cs) || strContains cs needle

theorem isPrefixOf_eq_true_iff (l₁ l₂ : Str) :
    l₁.isPrefixOf l₂ = true ↔ ∃ t, l₂ = l₁ ++ t := by
  induction l₁ generalizing l₂ with
  | nil => simp [List.isPrefixOf]
  | cons a as ih =>
    cases l₂ with
    | nil => simp [List.isPrefixOf]
    | cons b bs =>
      simp only [List.isPrefixOf, Bool.and_eq_true, beq_iff_eq, ih, List.cons_append,
        List.cons.injEq]
      constructor
      · rintro ⟨rfl, t, rfl⟩
        exact ⟨t, rfl, rfl⟩
      · rintro ⟨t, rfl, rfl⟩
        exact ⟨rfl, t, rfl⟩

theorem strContains_eq_true_iff (haystack needle : Str) :
    strContains haystack needle = true ↔ ∃ s t, haystack = s ++ needle ++ t := by
  induction haystack with
  | nil =>
    simp only [strContains, List.isEmpty_iff]
    constructor
    · rintro rfl
      exact ⟨[], [], rfl⟩
    · rintro ⟨s, t, h⟩
      rcases List.append_eq_nil.mp (List.append_eq_nil.mp h.symm).1 with ⟨-, h2⟩
      exact h2
  | cons c cs ih =>
    simp only [strContains, Bool.or_eq_true, isPrefixOf_eq_true_iff, ih]
    constructor
    · rintro (⟨t, ht⟩ | ⟨s, t, hst⟩)
      · exact ⟨[], t, by simpa using ht⟩
      · exact ⟨c :: s, t, by simp [hst]⟩
    · rintro ⟨s, t, hst⟩
      cases s with
      | nil => exact Or.inl ⟨t, by simpa using hst⟩
      | cons d ds =>
        simp only [List.cons_append, List.cons.injEq] at hst
        exact Or.inr ⟨ds, t, hst.2⟩

/-- An anchor element with class `discussion-link` on a listing page:
its visible text and its `href` attribute. -/
structure Anchor where
  text : Str
  href : Str
  deriving DecidableEq

/-- The keep test applied to each anchor at src/main.py line 72:
`search_string.lower() in discussion.text.lower()`. -/
def keepAnchor (search : Str) (a : Anchor) : Bool :=
  strContains (pyLower a.text) (pyLower search)

/-- Hrefs collected from one listing page (src/main.py lines 71–73). -/
def collectPage (search : Str) (anchors : List Anchor) : List Str :=
  (anchors.filter (keepAnchor search)).map Anchor.href

/-- The listing site as the enumerator observes it.  `page_indicator` is
`some n` when the page-count indicator is present and reads `n`, `none` when
`find_element` raises (indicator absent or fetch blocked).  `anchors p` is the
anchor list rendered on listing page `p`.  `crash_at = some k` injects an
exception while visiting page `k` (navigation failure), before page `k`'s
anchors are read; it is meaningful only when `1 ≤ k ≤` the page count. -/
structure Site where
  page_indicator : Option Nat
  anchors : Nat → List Anchor
  crash_at : Option Nat

/-- Hrefs collected from listing pages `1..n`, in visit order. -/
def collectUpTo (site : Site) (search : Str) (n : Nat) : List Str :=
  ((List.range' 1 n).map (fun p => collectPage search (site.anchors p))).flatten

/-- Embeds `get_all_discussion_links` (src/main.py lines 42–81).  On the
success path the function returns `list(set(links))` — modelled as `dedup`,
since the claims about it are order-insensitive.  When the page indicator is
missing, `find_element` raises before any link is appended and the
`except` branch returns the still-empty `links`.  When an exception is
raised while visiting page `k`, the `except` branch returns the raw `links`
collected from pages `1..k-1`, with no deduplication. -/
def get_all_discussion_links (site : Site) (search : Str) : List Str :=
  match site.page_indicator with
  | none => []
  | some num_pages =>
    match site.crash_at with
    | some k =>
      if 1 ≤ k ∧ k ≤ num_pages then collectUpTo site search (k - 1)
      else (collectUpTo site search num_pages).dedup
    | none => (collectUpTo site search num_pages).dedup

/-- Comparison used by `sorted(..., key=lambda q: q['key'][1])`: records are
compared by their question number. -/
def qleRel (a b : QRecord) : Prop := a.question ≤ b.question

instance : DecidableRel qleRel := fun a b => Nat.decLe a.question b.question

instance : IsTotal QRecord qleRel := ⟨fun a b => Nat.le_total a.question b.question⟩

instance : IsTrans QRecord qleRel := ⟨fun _ _ _ h1 h2 => Nat.le_trans h1 h2⟩

/-- One `all_question_data.setdefault(topic, []).append(result)` step
(src/main.py lines 213–215): the record is appended to its topic's list,
creating the entry (at the end, in dict insertion order) if absent. -/
def addToGroup : List (Nat × List QRecord) → QRecord → List (Nat × List QRecord)
  | [], r => [(r.topic, [r])]
  | (t, rs) :: rest, r =>
    if t = r.topic then (t, rs ++ [r]) :: rest else (t, rs) :: addToGroup rest r

/-- Embeds the grouping loop of src/main.py lines 211–215: the dict
`all_question_data`, represented as an association list in insertion order. -/
def all_question_data (results : List QRecord) : List (Nat × List QRecord) :=
  results.foldl addToGroup []

/-- Dict lookup `all_question_data[topic]` (first matching entry). -/
def groupGet (g : List (Nat × List QRecord)) (t : Nat) : List QRecord :=
  match g with
  | [] => []
  | (t', rs) :: rest => if t' = t then rs else groupGet rest t

/-- Dict key view `all_question_data.keys()` in insertion order. -/
def groupKeys (g : List (Nat × List QRecord)) : List Nat := g.map Prod.fst

/-- The order in which `save_as_text_file` (src/main.py lines 140–148) emits
the data: topics in `sorted(keys)` order, and inside each topic the records in
`sorted(..., key=lambda q: q['key'][1])` order.  (`save_as_anki_csv` iterates
identically.) -/
def exportOrder (g : List (Nat × List QRecord)) : List (Nat × List QRecord) :=
  (List.insertionSort (fun a b => a ≤ b) (groupKeys g)).map
    (fun t => (t, List.insertionSort qleRel (groupGet g t)))

theorem groupGet_addToGroup (acc : List (Nat × List QRecord)) (r : QRecord) (t : Nat) :
    groupGet (addToGroup acc r) t =
      groupGet acc t ++ (if r.topic = t then [r] else []) := by
  induction acc with
  | nil =>
    by_cases h : r.topic = t <;> simp [addToGroup, groupGet, h]
  | cons p rest ih =>
    obtain ⟨t', rs⟩ := p
    simp only [addToGroup]
    by_cases h1 : t' = r.topic
    · by_cases h2 : r.topic = t
      · simp [groupGet, if_pos h1, h1.trans h2, h2]
      · have ht : ¬ t' = t := fun h => h2 (h1.symm.trans h)
        simp [groupGet, if_pos h1, ht, h2]
    · by_cases h2 : t' = t
      · subst h2
        have hr : ¬ r.topic = t' := fun h => h1 h.symm
        simp [groupGet, if_neg h1, hr]
      · simp [groupGet, if_neg h1, h2, ih]

theorem groupGet_foldl (rs : List QRecord) (acc : List (Nat × List QRecord)) (t : Nat) :
    groupGet (rs.foldl addToGroup acc) t =
      groupGet acc t ++ rs.filter (fun r => r.topic == t) := by
  induction rs generalizing acc with
  | nil => simp
  | cons r rest ih =>
    simp only [List.foldl_cons, ih, groupGet_addToGroup]
    by_cases h : r.topic = t
    · simp [List.filter_cons, h, List.append_assoc]
    · simp [List.filter_cons, h]

/-- The topic-`t` group is exactly the records with topic `t`, in arrival
order. -/
theorem groups_eq (results : List QRecord) (t : Nat) :
    groupGet (all_question_data results) t =
      results.filter (fun r => r.topic == t) := by
  simpa [all_question_data] using groupGet_foldl results [] t

theorem groupKeys_addToGroup (acc : List (Nat × List QRecord)) (r : QRecord) :
    groupKeys (addToGroup acc r) =
      if r.topic ∈ groupKeys acc then groupKeys acc else groupKeys acc ++ [r.topic] := by
  induction acc with
  | nil => simp [addToGroup, groupKeys]
  | cons p rest ih =>
    obtain ⟨t', rs⟩ := p
    simp only [addToGroup, groupKeys, List.map_cons] at ih ⊢
    by_cases h1 : t' = r.topic
    · simp [h1]
    · have h1' : ¬ r.topic = t' := fun h => h1 h.symm
      simp only [if_neg h1, List.map_cons, ih, List.mem_cons, h1', false_or]
      by_cases h2 : r.topic ∈ List.map Prod.fst rest
      · simp [h2]
      · simp [h2]

theorem groupKeys_nodup_addToGroup (acc : List (Nat × List QRecord)) (r : QRecord)
    (h : (groupKeys acc).Nodup) : (groupKeys (addToGroup acc r)).Nodup := by
  rw [groupKeys_addToGroup]
  by_cases hmem : r.topic ∈ groupKeys acc
  · simpa [hmem] using h
  · simp only [hmem, if_false]
    simpa [List.nodup_append] using ⟨h, hmem⟩

/-- Dict keys are distinct: the grouping never creates two entries for one
topic. -/
theorem groupKeys_nodup (results : List QRecord) :
    (groupKeys (all_question_data results)).Nodup := by
  suffices h : ∀ acc : List (Nat × List QRecord), (groupKeys acc).Nodup →
      (groupKeys (results.foldl addToGroup acc)).Nodup by
    exact h [] (by simp [groupKeys])
  induction results with
  | nil => intro acc h; simpa using h
  | cons r rest ih =>
    intro acc h
    exact ih (addToGroup acc r) (groupKeys_nodup_addToGroup acc r h)

theorem sorted_lt_of_sorted_le_nodup {l : List Nat}
    (h1 : l.Sorted (fun a b => a ≤ b)) (h2 : l.Nodup) : l.Sorted (· < ·) :=
  (List.Pairwise.and h1 h2).imp (fun h => lt_of_le_of_ne h.1 h.2)

theorem export_topics_eq (g : List (Nat × List QRecord)) :
    (exportOrder g).map Prod.fst =
      List.insertionSort (fun a b => a ≤ b) (groupKeys g) := by
  simp [exportOrder, List.map_map, Function.comp_def]

theorem export_topics_sorted (results : List QRecord) :
    ((exportOrder (all_question_data results)).map Prod.fst).Sorted (fun a b => a < b) := by
  rw [export_topics_eq]
  apply sorted_lt_of_sorted_le_nodup
  · exact List.sorted_insertionSort _ _
  · exact ((List.perm_insertionSort _ _).nodup_iff).mpr (groupKeys_nodup results)

theorem export_groups_sorted_le (results : List QRecord) :
    ∀ p ∈ exportOrder (all_question_data results),
      (p.2.map QRecord.question).Sorted (fun a b => a ≤ b) := by
  intro p hp
  simp only [exportOrder, List.mem_map] at hp
  obtain ⟨t, -, rfl⟩ := hp
  have h := List.sorted_insertionSort qleRel (groupGet (all_question_data results) t)
  rw [List.Sorted, List.pairwise_map]
  exact h

theorem group_questions_nodup (results : List QRecord) (t : Nat)
    (hk : (results.map (fun r => (r.topic, r.question))).Nodup) :
    ((groupGet (all_question_data results) t).map QRecord.question).Nodup := by
  rw [groups_eq]
  have hpair : results.Pairwise
      (fun a b => (a.topic, a.question) ≠ (b.topic, b.question)) := by
    rw [List.Nodup, List.pairwise_map] at hk
    exact hk
  have hsub : (results.filter (fun r => r.topic == t)).Pairwise
      (fun a b => (a.topic, a.question) ≠ (b.topic, b.question)) :=
    hpair.sublist (List.filter_sublist results)
  rw [List.Nodup, List.pairwise_map]
  refine hsub.imp_of_mem ?_
  intro a b ha hb hne hq
  have hat : a.topic = t := by simpa using (List.mem_filter.mp ha).2
  have hbt : b.topic = t := by simpa using (List.mem_filter.mp hb).2
  exact hne (by rw [hat, hbt, hq])

theorem export_groups_sorted_lt (results : List QRecord)
    (hk : (results.map (fun r => (r.topic, r.question))).Nodup) :
    ∀ p ∈ exportOrder (all_question_data results),
      (p.2.map QRecord.question).Sorted (fun a b => a < b) := by
  intro p hp
  have hle := export_groups_sorted_le results p hp
  simp only [exportOrder, List.mem_map] at hp
  obtain ⟨t, -, rfl⟩ := hp
  have hnd : ((List.insertionSort qleRel (groupGet (all_question_data results) t)).map
      QRecord.question).Nodup := by
    refine (List.Perm.nodup_iff ?_).mpr (group_questions_nodup results t hk)
    exact (List.perm_insertionSort qleRel _).map QRecord.question
  exact sorted_lt_of_sorted_le_nodup hle hnd

/-- A record with the given key and link and empty extracted fields. -/
def mkRec (t q : Nat) (l : Str) : QRecord :=
  { topic := t, question := q, link := l, question_text := [], choices := [],
    suggested_answer := [] }

/-- Two distinct links carrying the same `(topic, question)` key — possible
because `main` deduplicates by raw URL only, never by key. -/
def c2dup : List QRecord := [mkRec 1 2 "a".data, mkRec 1 2 "b".data]

/-- A result set in scrambled completion order with all keys distinct. -/
def c2ok : List QRecord := [mkRec 2 1 "c".data, mkRec 1 2 "a".data, mkRec 1 1 "b".data]

/-- C2 (amended): exported topics appear in strictly ascending order, and
within each topic the question numbers appear in ascending (non-decreasing)
order, independent of completion order; the within-topic order is strictly
increasing whenever the result set carries no duplicate `(topic, question)`
key — which URL-level deduplication does not guarantee. -/
theorem export_ordering (results : List QRecord) :
    ((exportOrder (all_question_data results)).map Prod.fst).Sorted (fun a b => a < b) ∧
    (∀ p ∈ exportOrder (all_question_data results),
      (p.2.map QRecord.question).Sorted (fun a b => a ≤ b)) ∧
    ((results.map (fun r => (r.topic, r.question))).Nodup →
      ∀ p ∈ exportOrder (all_question_data results),
        (p.2.map QRecord.question).Sorted (fun a b => a < b)) :=
  ⟨export_topics_sorted results, export_groups_sorted_le results,
    fun hk => export_groups_sorted_lt results hk⟩

/-- C2 (counterexample to the claim as stated): with two distinct links
sharing the key `(1, 2)`, the exported topic-1 group lists question 2 twice,
so the within-topic order is not strictly increasing. -/
theorem export_ordering_counterexample :
    ¬ (((exportOrder (all_question_data c2dup)).map Prod.fst).Sorted (fun a b => a < b) ∧
       ∀ p ∈ exportOrder (all_question_data c2dup),
         (p.2.map QRecord.question).Sorted (fun a b => a < b)) := by
  decide

/-- The exported topic-1 group of the `c2ok` result set. -/
def c2okGroup1 : List QRecord :=
  List.insertionSort qleRel (groupGet (all_question_data c2ok) 1)

/-- C2 witness: the amended theorem applied to the concrete scrambled result
set `c2ok`, whose keys are distinct, yields strict ordering. -/
theorem export_ordering_witness :
    (((exportOrder (all_question_data c2ok)).map Prod.fst).Sorted (fun a b => a < b)) ∧
    ((c2okGroup1.map QRecord.question).Sorted (fun a b => a < b)) := by
  refine ⟨(export_ordering c2ok).1, ?_⟩
  exact (export_ordering c2ok).2.2 (by decide) (1, c2okGroup1) (by decide)

/-- The fan-out of src/main.py lines 206–209: one
`fetch_single_question_data` call per submitted item, the outcome of the
`i`-th item's session given by the environment `oc i`. -/
def fetchAll : List LinkItem → (Nat → FetchOutcome) → List QRecord
  | [], _ => []
  | it :: rest, oc =>
    fetch_single_question_data it (oc 0) :: fetchAll rest (fun i => oc (i + 1))

theorem fetchAll_getElem (items : List LinkItem) (oc : Nat → FetchOutcome) (i : Nat) :
    (fetchAll items oc)[i]? =
      (items[i]?).map (fun it => fetch_single_question_data it (oc i)) := by
  induction items generalizing oc i with
  | nil => simp [fetchAll]
  | cons it rest ih =>
    cases i with
    | zero => simp [fetchAll]
    | succ j => simp [fetchAll, ih]

theorem fetchAll_length (items : List LinkItem) (oc : Nat → FetchOutcome) :
    (fetchAll items oc).length = items.length := by
  induction items generalizing oc with
  | nil => rfl
  | cons it rest ih => simp [fetchAll, ih]

/-- C3: every dispatched item yields exactly one record (N in, N out); the
`i`-th record is the fetch of the `i`-th item, so it carries that item's key
and link; changing one item's outcome (for example injecting a failure)
leaves every sibling's record unchanged; and an exception caught at the item
boundary becomes the failure-variant record that still carries the original
key and link. -/
theorem per_item_isolation (items : List LinkItem) (oc : Nat → FetchOutcome) :
    (fetchAll items oc).length = items.length ∧
    (∀ i, (fetchAll items oc)[i]? =
      (items[i]?).map (fun it => fetch_single_question_data it (oc i))) ∧
    (∀ oc' : Nat → FetchOutcome, ∀ i : Nat, (∀ j, j ≠ i → oc j = oc' j) →
      ∀ j, j ≠ i → (fetchAll items oc)[j]? = (fetchAll items oc')[j]?) ∧
    (∀ it : LinkItem, fetch_single_question_data it FetchOutcome.err =
      { topic := it.topic, question := it.question, link := it.link,
        question_text := "Error during processing".data, choices := [],
        suggested_answer := "".data }) := by
  refine ⟨fetchAll_length items oc, fetchAll_getElem items oc, ?_, fun it => rfl⟩
  intro oc' i hagree j hj
  rw [fetchAll_getElem, fetchAll_getElem, hagree j hj]

/-- Items and outcomes for the C3 witness: the middle item of three fails. -/
def c3items : List LinkItem :=
  [⟨1, 1, "l1".data⟩, ⟨1, 2, "l2".data⟩, ⟨2, 1, "l3".data⟩]

/-- All three sessions succeed on a page with no containers beyond the body. -/
def c3okPage : Page := ⟨some ⟨some "Q".data⟩, none, none⟩

/-- Outcome environment in which every fetch succeeds. -/
def c3oc : Nat → FetchOutcome := fun _ => FetchOutcome.ok c3okPage

/-- Outcome environment in which only item 1 (the middle item) fails. -/
def c3oc' : Nat → FetchOutcome := fun i => if i = 1 then FetchOutcome.err else FetchOutcome.ok c3okPage

/-- C3 witness: with three items and a failure injected into the middle one,
three records still come out, the failed slot carries its original key and
link in the failure variant, and the sibling records are unchanged. -/
theorem per_item_isolation_witness :
    (fetchAll c3items c3oc').length = 3 ∧
    (fetchAll c3items c3oc')[1]? = some
      { topic := 1, question := 2, link := "l2".data,
        question_text := "Error during processing".data, choices := [],
        suggested_answer := "".data } ∧
    (fetchAll c3items c3oc)[0]? = (fetchAll c3items c3oc')[0]? ∧
    (fetchAll c3items c3oc)[2]? = (fetchAll c3items c3oc')[2]? := by
  refine ⟨(per_item_isolation c3items c3oc').1, ?_, ?_, ?_⟩
  · rw [(per_item_isolation c3items c3oc').2.1 1]
    rfl
  · exact (per_item_isolation c3items c3oc).2.2.1 c3oc' 1
      (by intro j hj; simp [c3oc, c3oc', hj]) 0 (by decide)
  · exact (per_item_isolation c3items c3oc).2.2.1 c3oc' 1
      (by intro j hj; simp [c3oc, c3oc', hj]) 2 (by decide)

/-- C4: a fetched page whose markup lacks the `question-body` container
yields the degraded record — sentinel question text, empty choices, empty
suggested answer — with the original key and link preserved, and that record
still lands in its topic's group and in the exported (sorted) group. -/
theorem degraded_record (item : LinkItem) (cc : Option (List Str))
    (ac : Option (Option Str)) (rs : List QRecord) :
    fetch_single_question_data item (FetchOutcome.ok ⟨none, cc, ac⟩) =
      { topic := item.topic, question := item.question, link := item.link,
        question_text := "Blocked or question not found".data, choices := [],
        suggested_answer := "".data } ∧
    fetch_single_question_data item (FetchOutcome.ok ⟨none, cc, ac⟩) ∈
      groupGet
        (all_question_data (rs ++ [fetch_single_question_data item (FetchOutcome.ok ⟨none, cc, ac⟩)]))
        item.topic ∧
    fetch_single_question_data item (FetchOutcome.ok ⟨none, cc, ac⟩) ∈
      List.insertionSort qleRel
        (groupGet
          (all_question_data (rs ++ [fetch_single_question_data item (FetchOutcome.ok ⟨none, cc, ac⟩)]))
          item.topic) := by
  have hmem : fetch_single_question_data item (FetchOutcome.ok ⟨none, cc, ac⟩) ∈
      groupGet
        (all_question_data (rs ++ [fetch_single_question_data item (FetchOutcome.ok ⟨none, cc, ac⟩)]))
        item.topic := by
    rw [groups_eq]
    refine List.mem_filter.mpr ⟨List.mem_append_right rs (List.mem_singleton_self _), ?_⟩
    simp [fetch_single_question_data]
  refine ⟨rfl, hmem, ?_⟩
  exact ((List.perm_insertionSort qleRel _).mem_iff).mpr hmem

/-- C8: when the answer container is absent, or present without the
correct-answer marker, the suggested answer is the `"Not found"` sentinel;
when both are present the suggested answer is the marker's text; and the
answer container has no effect on the record's key, link, question text, or
choices. -/
theorem suggested_answer_sentinel (item : LinkItem) (qb : QuestionBody)
    (cc : Option (List Str)) :
    (fetch_single_question_data item (FetchOutcome.ok ⟨some qb, cc, none⟩)).suggested_answer =
      "Not found".data ∧
    (fetch_single_question_data item (FetchOutcome.ok ⟨some qb, cc, some none⟩)).suggested_answer =
      "Not found".data ∧
    (∀ t : Str,
      (fetch_single_question_data item (FetchOutcome.ok ⟨some qb, cc, some (some t)⟩)).suggested_answer = t) ∧
    (∀ ac ac' : Option (Option Str),
      (fetch_single_question_data item (FetchOutcome.ok ⟨some qb, cc, ac⟩)).topic =
        (fetch_single_question_data item (FetchOutcome.ok ⟨some qb, cc, ac'⟩)).topic ∧
      (fetch_single_question_data item (FetchOutcome.ok ⟨some qb, cc, ac⟩)).question =
        (fetch_single_question_data item (FetchOutcome.ok ⟨some qb, cc, ac'⟩)).question ∧
      (fetch_single_question_data item (FetchOutcome.ok ⟨some qb, cc, ac⟩)).link =
        (fetch_single_question_data item (FetchOutcome.ok ⟨some qb, cc, ac'⟩)).link ∧
      (fetch_single_question_data item (FetchOutcome.ok ⟨some qb, cc, ac⟩)).question_text =
        (fetch_single_question_data item (FetchOutcome.ok ⟨some qb, cc, ac'⟩)).question_text ∧
      (fetch_single_question_data item (FetchOutcome.ok ⟨some qb, cc, ac⟩)).choices =
        (fetch_single_question_data item (FetchOutcome.ok ⟨some qb, cc, ac'⟩)).choices) :=
  ⟨rfl, rfl, fun _ => rfl, fun _ _ => ⟨rfl, rfl, rfl, rfl, rfl⟩⟩

/-- C5: an anchor's href is collected exactly when the lower-cased search
term occurs as a contiguous substring of the anchor's lower-cased visible
text; with search term `ACE`, an anchor mentioning `ACE` (upper case) or
`ace` (lower case) is kept and the anchor `Unrelated exam` is not. -/
theorem link_filter (search : Str) (anchors : List Anchor) (href : Str) :
    (href ∈ collectPage search anchors ↔
      ∃ a ∈ anchors, a.href = href ∧
        ∃ s t, pyLower a.text = s ++ pyLower search ++ t) ∧
    keepAnchor "ACE".data
      ⟨"AWS Certified Associate Cloud Engineer ACE exam".data, "h1".data⟩ = true ∧
    keepAnchor "ACE".data
      ⟨"exam actual questions ace 2024".data, "h2".data⟩ = true ∧
    keepAnchor "ACE".data ⟨"Unrelated exam".data, "h3".data⟩ = false := by
  refine ⟨⟨?_, ?_⟩, by decide, by decide, by decide⟩
  · intro h
    simp only [collectPage, List.mem_map] at h
    obtain ⟨a, ha, rfl⟩ := h
    obtain ⟨ha1, ha2⟩ := List.mem_filter.mp ha
    rw [keepAnchor, strContains_eq_true_iff] at ha2
    exact ⟨a, ha1, rfl, ha2⟩
  · rintro ⟨a, ha, rfl, s, t, hst⟩
    simp only [collectPage, List.mem_map]
    refine ⟨a, List.mem_filter.mpr ⟨ha, ?_⟩, rfl⟩
    rw [keepAnchor, strContains_eq_true_iff]
    exact ⟨s, t, hst⟩

/-- C6: the enumerator returns an empty result when the page-count indicator
is missing (the exception is caught, not propagated) and when the page count
is zero; on a crash-free run it returns the collected hrefs deduplicated as a
set (no duplicates, same membership). -/
theorem discovery_result (site : Site) (search : Str) :
    (site.page_indicator = none → get_all_discussion_links site search = []) ∧
    (site.page_indicator = some 0 → get_all_discussion_links site search = []) ∧
    (∀ np, site.page_indicator = some np → site.crash_at = none →
      (get_all_discussion_links site search).Nodup ∧
      ∀ l, l ∈ get_all_discussion_links site search ↔ l ∈ collectUpTo site search np) := by
  refine ⟨?_, ?_, ?_⟩
  · intro h
    simp [get_all_discussion_links, h]
  · intro h
    simp only [get_all_discussion_links, h]
    cases hc : site.crash_at with
    | none => simp [collectUpTo]
    | some k =>
      have hk : ¬ (1 ≤ k ∧ k ≤ 0) := by omega
      show (if 1 ≤ k ∧ k ≤ 0 then collectUpTo site search (k - 1)
        else (collectUpTo site search 0).dedup) = []
      rw [if_neg hk]
      simp [collectUpTo]
  · intro np hnp hc
    simp only [get_all_discussion_links, hnp, hc]
    exact ⟨List.nodup_dedup _, fun l => List.mem_dedup⟩

/-- Crash-free two-page site whose pages repeat the same matching href. -/
def c6site : Site :=
  ⟨some 2,
   fun p => if p = 1 then [⟨"ACE one".data, "h1".data⟩] else [⟨"ACE two".data, "h1".data⟩],
   none⟩

/-- C6 witness: on the concrete crash-free site the returned list is
duplicate-free and has the same members as the raw collection. -/
theorem discovery_result_witness :
    (get_all_discussion_links c6site "ACE".data).Nodup ∧
    ("h1".data ∈ get_all_discussion_links c6site "ACE".data ↔
      "h1".data ∈ collectUpTo c6site "ACE".data 2) :=
  ⟨((discovery_result c6site "ACE".data).2.2 2 rfl rfl).1,
   ((discovery_result c6site "ACE".data).2.2 2 rfl rfl).2 "h1".data⟩

/-- C10: when an exception is raised while visiting page `k` (after pages
`1..k-1` were scanned), the `except` branch returns the raw partially
collected link list — `list(set(...))` is never applied on this path. -/
theorem error_path_raw_links (site : Site) (search : Str) (np k : Nat)
    (h1 : site.page_indicator = some np) (h2 : site.crash_at = some k)
    (h3 : 1 ≤ k) (h4 : k ≤ np) :
    get_all_discussion_links site search = collectUpTo site search (k - 1) := by
  simp [get_all_discussion_links, h1, h2, h3, h4]

/-- Five-page site that repeats one matching href on every page and raises
while visiting page 3. -/
def c10site : Site := ⟨some 5, fun _ => [⟨"ACE exam".data, "dup".data⟩], some 3⟩

/-- C10 witness: on the concrete crashing site the error-path result is the
raw two-page collection and indeed contains a duplicate href. -/
theorem error_path_raw_links_witness :
    get_all_discussion_links c10site "ACE".data = collectUpTo c10site "ACE".data 2 ∧
    get_all_discussion_links c10site "ACE".data = ["dup".data, "dup".data] ∧
    ¬ (get_all_discussion_links c10site "ACE".data).Nodup := by
  refine ⟨error_path_raw_links c10site "ACE".data 5 3 rfl rfl (by decide) (by decide), ?_, ?_⟩
  · decide
  · decide

theorem splitOnP_chunks_not (p : Char → Bool) (s : Str) :
    ∀ w ∈ s.splitOnP p, ∀ c ∈ w, p c = false := by
  induction s with
  | nil =>
    intro w hw c hc
    rw [List.splitOnP_nil] at hw
    simp only [List.mem_singleton] at hw
    subst hw
    exact absurd hc (List.not_mem_nil c)
  | cons x xs ih =>
    intro w hw c hc
    rw [List.splitOnP_cons] at hw
    by_cases hx : p x
    · rw [if_pos hx] at hw
      rcases List.mem_cons.mp hw with rfl | hw'
      · exact absurd hc (List.not_mem_nil c)
      · exact ih w hw' c hc
    · rw [if_neg hx] at hw
      cases hsp : xs.splitOnP p with
      | nil => exact absurd hsp (List.splitOnP_ne_nil p xs)
      | cons h t =>
        rw [hsp] at hw
        simp only [List.modifyHead] at hw
        rcases List.mem_cons.mp hw with rfl | hw'
        · rcases List.mem_cons.mp hc with rfl | hc'
          · simpa using hx
          · exact ih h (by rw [hsp]; exact List.mem_cons_self h t) c hc'
        · exact ih w (by rw [hsp]; exact List.mem_cons_of_mem h hw') c hc

theorem flatten_splitOnP (p : Char → Bool) (s : Str) :
    (s.splitOnP p).flatten = s.filter (fun c => !p c) := by
  induction s with
  | nil => rw [List.splitOnP_nil]; rfl
  | cons x xs ih =>
    rw [List.splitOnP_cons]
    by_cases hx : p x
    · rw [if_pos hx]
      simp [List.filter_cons, hx, ih]
    · rw [if_neg hx]
      cases hsp : xs.splitOnP p with
      | nil => exact absurd hsp (List.splitOnP_ne_nil p xs)
      | cons h t =>
        rw [hsp] at ih
        simp [List.modifyHead, List.filter_cons, hx, ← ih]

theorem flatten_filter_nonempty (L : List Str) :
    (L.filter (fun w => !w.isEmpty)).flatten = L.flatten := by
  induction L with
  | nil => rfl
  | cons w ws ih =>
    cases w with
    | nil => simpa using ih
    | cons c cs => simp [List.filter_cons, ih]

/-- Every piece produced by `pySplitWs` is nonempty and free of whitespace. -/
theorem pySplitWs_chunks (s : Str) :
    ∀ w ∈ pySplitWs s, w ≠ [] ∧ ∀ c ∈ w, c.isWhitespace = false := by
  intro w hw
  obtain ⟨hw1, hw2⟩ := List.mem_filter.mp hw
  refine ⟨by simpa using hw2, fun c hc => ?_⟩
  exact splitOnP_chunks_not Char.isWhitespace s w hw1 c hc

/-- The non-whitespace content survives splitting untouched. -/
theorem pySplitWs_flatten (s : Str) :
    (pySplitWs s).flatten = s.filter (fun c => !c.isWhitespace) := by
  rw [pySplitWs, flatten_filter_nonempty, flatten_splitOnP]

theorem chain'_nonws {s : Str} (h : ∀ c ∈ s, c.isWhitespace = false) :
    s.Chain' (fun a b => a.isWhitespace = false ∨ b.isWhitespace = false) := by
  induction s with
  | nil => exact List.chain'_nil
  | cons a t ih =>
    cases t with
    | nil => exact List.chain'_singleton a
    | cons b u =>
      refine List.chain'_cons.mpr ⟨Or.inl (h a (by simp)), ih ?_⟩
      intro c hc
      exact h c (List.mem_cons_of_mem a hc)

theorem pyJoin_chain' (ws : List Str)
    (h : ∀ w ∈ ws, w ≠ [] ∧ ∀ c ∈ w, c.isWhitespace = false) :
    (pyJoinSpace ws).Chain' (fun a b => a.isWhitespace = false ∨ b.isWhitespace = false) ∧
    (∀ y ∈ (pyJoinSpace ws).head?, y.isWhitespace = false) := by
  induction ws with
  | nil => exact ⟨List.chain'_nil, by simp [pyJoinSpace]⟩
  | cons w rest ih =>
    cases rest with
    | nil =>
      refine ⟨chain'_nonws (h w (by simp)).2, ?_⟩
      intro y hy
      exact (h w (by simp)).2 y (List.mem_of_mem_head? hy)
    | cons v rest' =>
      have htail : ∀ u ∈ v :: rest', u ≠ [] ∧ ∀ c ∈ u, c.isWhitespace = false :=
        fun u hu => h u (List.mem_cons_of_mem w hu)
      obtain ⟨ihc, ihh⟩ := ih htail
      have hw := h w (List.mem_cons_self w (v :: rest'))
      constructor
      · show (w ++ ' ' :: pyJoinSpace (v :: rest')).Chain'
          (fun a b => a.isWhitespace = false ∨ b.isWhitespace = false)
        refine List.chain'_append.mpr ⟨chain'_nonws hw.2, ?_, ?_⟩
        · refine List.chain'_cons'.mpr ⟨?_, ihc⟩
          intro y hy
          exact Or.inr (ihh y hy)
        · intro x hx y hy
          have hxw : x ∈ w := List.mem_of_mem_getLast? hx
          exact Or.inl (hw.2 x hxw)
      · intro y hy
        cases hwc : w with
        | nil => exact absurd hwc hw.1
        | cons a t =>
          subst hwc
          have hha : (pyJoinSpace ((a :: t) :: v :: rest')).head? = some a := rfl
          rw [Option.mem_def, hha] at hy
          injection hy with hy2
          subst hy2
          exact hw.2 a (List.mem_cons_self a t)

theorem pyJoin_filter (ws : List Str)
    (h : ∀ w ∈ ws, w ≠ [] ∧ ∀ c ∈ w, c.isWhitespace = false) :
    (pyJoinSpace ws).filter (fun c => !c.isWhitespace) = ws.flatten := by
  induction ws with
  | nil => rfl
  | cons w rest ih =>
    cases rest with
    | nil =>
      show w.filter (fun c => !c.isWhitespace) = w ++ []
      rw [List.append_nil]
      refine List.filter_eq_self.mpr ?_
      intro c hc
      simp [(h w (by simp)).2 c hc]
    | cons v rest' =>
      have htail : ∀ u ∈ v :: rest', u ≠ [] ∧ ∀ c ∈ u, c.isWhitespace = false :=
        fun u hu => h u (List.mem_cons_of_mem w hu)
      have hw := h w (List.mem_cons_self w (v :: rest'))
      show (w ++ ' ' :: pyJoinSpace (v :: rest')).filter (fun c => !c.isWhitespace) =
        w ++ (v :: rest').flatten
      rw [List.filter_append, List.filter_cons]
      have hsp : (!(' ' : Char).isWhitespace) = false := by decide
      rw [hsp, if_neg Bool.false_ne_true]
      rw [ih htail]
      congr 1
      refine List.filter_eq_self.mpr ?_
      intro c hc
      simp [hw.2 c hc]

theorem pyJoin_ws_chars (ws : List Str)
    (h : ∀ w ∈ ws, w ≠ [] ∧ ∀ c ∈ w, c.isWhitespace = false) :
    ∀ c ∈ pyJoinSpace ws, c.isWhitespace = true → c = ' ' := by
  induction ws with
  | nil => intro c hc; exact absurd hc (List.not_mem_nil c)
  | cons w rest ih =>
    cases rest with
    | nil =>
      intro c hc hws
      exact absurd hws (by simp [(h w (by simp)).2 c hc])
    | cons v rest' =>
      have htail : ∀ u ∈ v :: rest', u ≠ [] ∧ ∀ c ∈ u, c.isWhitespace = false :=
        fun u hu => h u (List.mem_cons_of_mem w hu)
      have hw := h w (List.mem_cons_self w (v :: rest'))
      intro c hc hws
      have hc' : c ∈ w ++ ' ' :: pyJoinSpace (v :: rest') := hc
      rcases List.mem_append.mp hc' with hcw | hcr
      · exact absurd hws (by simp [hw.2 c hcw])
      · rcases List.mem_cons.mp hcr with rfl | hcj
        · rfl
        · exact ih htail c hcj hws

/-- Collapse specification for `' '.join(s.split())`: whitespace is reduced to
single interior spaces while the non-whitespace characters are untouched. -/
theorem collapse_props (s : Str) :
    (∀ c ∈ pyJoinSpace (pySplitWs s), c.isWhitespace = true → c = ' ') ∧
    (pyJoinSpace (pySplitWs s)).Chain'
      (fun a b => a.isWhitespace = false ∨ b.isWhitespace = false) ∧
    (pyJoinSpace (pySplitWs s)).filter (fun c => !c.isWhitespace) =
      s.filter (fun c => !c.isWhitespace) := by
  refine ⟨pyJoin_ws_chars _ (pySplitWs_chunks s), (pyJoin_chain' _ (pySplitWs_chunks s)).1, ?_⟩
  rw [pyJoin_filter _ (pySplitWs_chunks s), pySplitWs_flatten]

/-- C7 (counterexample to the claim as stated): `extract_question_from_link`
(src/extractor.py) does not strip the vote-count annotation — a choice whose
text carries `Most Voted` comes back with the annotation intact. -/
theorem choice_cleaning_counterexample :
    (extract_question_from_link (FetchOutcome.ok
      ⟨some ⟨some "Q".data⟩, some ["A. Use S3 Most Voted".data], none⟩)).2 =
      some ["A. Use S3 Most Voted".data] ∧
    strContains "A. Use S3 Most Voted".data "Most Voted".data = true := by
  exact ⟨rfl, by decide⟩

/-- C7 (amended): in `fetch_single_question_data` each choice has the
`Most Voted` annotation removed and whitespace collapsed to single interior
spaces; in `extract_question_from_link` whitespace is collapsed but the
annotation is retained; in both, an absent choices container yields an empty
choice list while the record keeps its real question text (no failure
variant). -/
theorem choice_cleaning (item : LinkItem) (qb : QuestionBody) (texts : List Str)
    (ac : Option (Option Str)) (s : Str) :
    (fetch_single_question_data item (FetchOutcome.ok ⟨some qb, some texts, ac⟩)).choices =
      texts.map cleanChoiceMain ∧
    cleanChoiceMain "A. Use  S3   Most Voted".data = "A. Use S3".data ∧
    (∀ c ∈ cleanChoiceMain s, c.isWhitespace = true → c = ' ') ∧
    (cleanChoiceMain s).Chain' (fun a b => a.isWhitespace = false ∨ b.isWhitespace = false) ∧
    (cleanChoiceMain s).filter (fun c => !c.isWhitespace) =
      (pyStrip (pyReplace s "Most Voted".data [])).filter (fun c => !c.isWhitespace) ∧
    (∀ c ∈ cleanChoiceExtractor s, c.isWhitespace = true → c = ' ') ∧
    (cleanChoiceExtractor s).Chain' (fun a b => a.isWhitespace = false ∨ b.isWhitespace = false) ∧
    (cleanChoiceExtractor s).filter (fun c => !c.isWhitespace) =
      s.filter (fun c => !c.isWhitespace) ∧
    (fetch_single_question_data item (FetchOutcome.ok ⟨some qb, none, ac⟩)).choices = [] ∧
    (fetch_single_question_data item (FetchOutcome.ok ⟨some qb, none, ac⟩)).question_text =
      (match qb.card_text with
       | some t => t
       | none => "Question text not found.".data) ∧
    (extract_question_from_link (FetchOutcome.ok ⟨some qb, none, ac⟩)).2 = some [] ∧
    (extract_question_from_link (FetchOutcome.ok ⟨some qb, none, ac⟩)).1 =
      some (match qb.card_text with
            | some t => t
            | none => "Question text not found.".data) := by
  obtain ⟨hm1, hm2, hm3⟩ := collapse_props (pyStrip (pyReplace s "Most Voted".data []))
  obtain ⟨he1, he2, he3⟩ := collapse_props s
  exact ⟨rfl, rfl, hm1, hm2, hm3, he1, he2, he3, rfl, rfl, rfl, rfl⟩

/-- Bound on parallel browser sessions (src/main.py line 20). -/
def MAX_CONCURRENT_BROWSERS : Nat := 12

/-- State of the `ThreadPoolExecutor` fan-out in src/main.py lines 206–209:
items submitted but not yet started, items whose worker is in flight, and the
records already collected from completed futures. -/
structure PoolState where
  pending : List LinkItem
  running : List LinkItem
  done : List QRecord
  deriving DecidableEq

/-- One scheduling event of the bounded pool: a queued item may start only
while fewer than `mw` workers are in flight, and a finished worker appends
exactly the record `fetch_single_question_data` produced for its item (the
outcome environment `oc` fixes each item's session result, success or
exception). -/
inductive PoolStep (mw : Nat) (oc : LinkItem → FetchOutcome) : PoolState → PoolState → Prop
  | start (it : LinkItem) (rest running : List LinkItem) (done : List QRecord) :
      running.length < mw →
      PoolStep mw oc ⟨it :: rest, running, done⟩ ⟨rest, it :: running, done⟩
  | finish (pending r1 r2 : List LinkItem) (it : LinkItem) (done : List QRecord) :
      PoolStep mw oc ⟨pending, r1 ++ it :: r2, done⟩
        ⟨pending, r1 ++ r2, fetch_single_question_data it (oc it) :: done⟩

/-- Pool state at submission time: all items queued, nothing started. -/
def initPool (items : List LinkItem) : PoolState := ⟨items, [], []⟩

/-- Execution traces of the pool: any interleaving of start/finish events. -/
def PoolReach (mw : Nat) (oc : LinkItem → FetchOutcome) : PoolState → PoolState → Prop :=
  Relation.ReflTransGen (PoolStep mw oc)

theorem pool_invariant (mw : Nat) (oc : LinkItem → FetchOutcome)
    (items : List LinkItem) (s : PoolState)
    (h : PoolReach mw oc (initPool items) s) :
    s.running.length ≤ mw ∧
    ∃ doneItems : List LinkItem,
      s.done = doneItems.map (fun it => fetch_single_question_data it (oc it)) ∧
      (s.pending ++ s.running ++ doneItems).Perm items := by
  induction h with
  | refl => exact ⟨Nat.zero_le mw, [], rfl, by simp [initPool]⟩
  | tail hreach hstep ih =>
    obtain ⟨hlen, d, hdone, hperm⟩ := ih
    cases hstep with
    | start it rest running done hlt =>
      refine ⟨by simpa using hlt, d, hdone, ?_⟩
      exact (List.Perm.append_right d List.perm_middle).trans hperm
    | finish pending r1 r2 it done =>
      have hdone' : done = List.map (fun it => fetch_single_question_data it (oc it)) d :=
        hdone
      have hperm' : ((pending ++ (r1 ++ it :: r2)) ++ d).Perm items := hperm
      refine ⟨?_, it :: d, ?_, ?_⟩
      · simp only [List.length_append, List.length_cons] at hlen ⊢
        omega
      · simp [hdone']
      · have p4 : (pending ++ (r1 ++ it :: r2)).Perm (it :: (pending ++ (r1 ++ r2))) :=
          (List.Perm.append_left pending List.perm_middle).trans List.perm_middle
        have e1 : ((pending ++ (r1 ++ r2)) ++ (it :: d)).Perm
            (it :: ((pending ++ (r1 ++ r2)) ++ d)) := List.perm_middle
        exact (e1.trans (p4.append_right d).symm).trans hperm'

/-- C9: along every trace of the fan-out at most `MAX_CONCURRENT_BROWSERS`
(= 12) items are in flight at once, and any state in which the pool has
drained (nothing pending, nothing in flight) holds exactly one record per
dispatched item — the records of all items, merely in completion order. -/
theorem bounded_pool (items : List LinkItem) (oc : LinkItem → FetchOutcome)
    (s : PoolState)
    (h : PoolReach MAX_CONCURRENT_BROWSERS oc (initPool items) s) :
    MAX_CONCURRENT_BROWSERS = 12 ∧
    s.running.length ≤ MAX_CONCURRENT_BROWSERS ∧
    (s.pending = [] ∧ s.running = [] →
      s.done.Perm (items.map (fun it => fetch_single_question_data it (oc it)))) := by
  obtain ⟨hlen, d, hdone, hperm⟩ :=
    pool_invariant MAX_CONCURRENT_BROWSERS oc items s h
  refine ⟨rfl, hlen, ?_⟩
  rintro ⟨hp, hr⟩
  rw [hdone]
  refine List.Perm.map _ ?_
  rw [hp, hr] at hperm
  simpa using hperm

/-- Item and outcome for the C9 witness trace. -/
def c9item : LinkItem := ⟨3, 7, "w".data⟩

/-- The witness item's session raises; its future still yields a record. -/
def c9oc : LinkItem → FetchOutcome := fun _ => FetchOutcome.err

/-- C9 witness: a concrete two-event trace (start, then finish) of one item
drains the pool and collects exactly that item's record, never exceeding the
in-flight bound. -/
theorem bounded_pool_witness :
    (PoolState.mk [] [] [fetch_single_question_data c9item FetchOutcome.err]).done.Perm
      ([c9item].map (fun it => fetch_single_question_data it (c9oc it))) ∧
    (PoolState.mk [] [] [fetch_single_question_data c9item FetchOutcome.err]).running.length ≤
      MAX_CONCURRENT_BROWSERS := by
  have hstep1 : PoolStep MAX_CONCURRENT_BROWSERS c9oc (initPool [c9item])
      ⟨[], [c9item], []⟩ :=
    PoolStep.start c9item [] [] [] (by decide)
  have hstep2 : PoolStep MAX_CONCURRENT_BROWSERS c9oc ⟨[], [c9item], []⟩
      ⟨[], [], [fetch_single_question_data c9item FetchOutcome.err]⟩ :=
    PoolStep.finish [] [] [] c9item []
  have hreach : PoolReach MAX_CONCURRENT_BROWSERS c9oc (initPool [c9item])
      ⟨[], [], [fetch_single_question_data c9item FetchOutcome.err]⟩ :=
    Relation.ReflTransGen.tail
      (Relation.ReflTransGen.tail Relation.ReflTransGen.refl hstep1) hstep2
  have h := bounded_pool [c9item] c9oc _ hreach
  exact ⟨h.2.2 ⟨rfl, rfl⟩, h.2.1⟩

/-- C4 witness: the degraded-record theorem evaluated at a concrete item
whose page lacks the question container. -/
theorem degraded_record_witness :
    fetch_single_question_data ⟨4, 2, "lnk".data⟩ (FetchOutcome.ok ⟨none, none, none⟩) =
      { topic := 4, question := 2, link := "lnk".data,
        question_text := "Blocked or question not found".data, choices := [],
        suggested_answer := "".data } ∧
    fetch_single_question_data ⟨4, 2, "lnk".data⟩ (FetchOutcome.ok ⟨none, none, none⟩) ∈
      groupGet
        (all_question_data
          ([] ++ [fetch_single_question_data ⟨4, 2, "lnk".data⟩ (FetchOutcome.ok ⟨none, none, none⟩)]))
        4 :=
  ⟨(degraded_record ⟨4, 2, "lnk".data⟩ none none []).1,
   (degraded_record ⟨4, 2, "lnk".data⟩ none none []).2.1⟩

/-- C5 witness: the filter theorem's concrete include/exclude instances. -/
theorem link_filter_witness :
    keepAnchor "ACE".data
      ⟨"AWS Certified Associate Cloud Engineer ACE exam".data, "h1".data⟩ = true ∧
    keepAnchor "ACE".data ⟨"Unrelated exam".data, "h3".data⟩ = false :=
  ⟨(link_filter "ACE".data [] []).2.1, (link_filter "ACE".data [] []).2.2.2⟩

/-- C7 witness: the amended cleaning theorem evaluated on one concrete noisy
choice flowing through `fetch_single_question_data`. -/
theorem choice_cleaning_witness :
    (fetch_single_question_data ⟨1, 1, "l".data⟩
      (FetchOutcome.ok ⟨some ⟨some "Q".data⟩, some ["A. Use  S3   Most Voted".data], none⟩)).choices =
      ["A. Use S3".data] := by
  have h := choice_cleaning ⟨1, 1, "l".data⟩ ⟨some "Q".data⟩
    ["A. Use  S3   Most Voted".data] none "x".data
  rw [h.1, List.map_cons, List.map_nil, h.2.1]

/-- C8 witness: the sentinel theorem evaluated at an absent answer container
and at a present correct-answer marker. -/
theorem suggested_answer_sentinel_witness :
    (fetch_single_question_data ⟨1, 1, "l".data⟩
      (FetchOutcome.ok ⟨some ⟨some "Q".data⟩, none, none⟩)).suggested_answer = "Not found".data ∧
    (fetch_single_question_data ⟨1, 1, "l".data⟩
      (FetchOutcome.ok ⟨some ⟨some "Q".data⟩, none, some (some "B".data)⟩)).suggested_answer =
      "B".data :=
  ⟨(suggested_answer_sentinel ⟨1, 1, "l".data⟩ ⟨some "Q".data⟩ none).1,
   (suggested_answer_sentinel ⟨1, 1, "l".data⟩ ⟨some "Q".data⟩ none).2.2.1 "B".data⟩

end ExamScrapers
